import Mathlib

/-!
Verification model of the dioxus web patch executor
(`packages/web/src/new.rs`) and the type-erased render cell
(`packages/core/src/any_props.rs`).

Strings are modelled as `List Char` so that Rust's string splitting and
integer formatting/parsing can be reasoned about structurally.  Native DOM
nodes are modelled by an arena (`heap`) of numeric handles; the slotmap
`WebsysDom.nodes` of the source is the `registry` field mapping slot ids to
handles.  A Rust panic (`unwrap`, `expect`, `todo!`, index out of bounds) is
modelled by returning `none`.
-/

namespace DioxusModel

abbrev Str := List Char

/-! ## Association lists

`FxHashMap`, `slotmap::SlotMap` and the DOM attribute map of the source are
modelled as association lists with first-match lookup. -/

def lookupA {κ α : Type} [DecidableEq κ] : List (κ × α) → κ → Option α
  | [], _ => none
  | p :: ps, k => if p.1 = k then some p.2 else lookupA ps k

def updateA {κ α : Type} [DecidableEq κ] : List (κ × α) → κ → α → List (κ × α)
  | [], _, _ => []
  | p :: ps, k, v => if p.1 = k then (k, v) :: updateA ps k v else p :: updateA ps k v

/-- Insert-or-overwrite, the semantics of `Element::setAttribute` and of
`HashMap::insert` as far as later lookups are concerned. -/
def setA {κ α : Type} [DecidableEq κ] (m : List (κ × α)) (k : κ) (v : α) : List (κ × α) :=
  if (lookupA m k).isSome then updateA m k v else m ++ [(k, v)]

def removeA {κ α : Type} [DecidableEq κ] (m : List (κ × α)) (k : κ) : List (κ × α) :=
  m.filter (fun p => decide (p.1 ≠ k))

/-! ## Decimal formatting and parsing

Models `format!("{}", n)` and `str::parse::<u64>()` of the source's
event-attribute wire format. -/

def digitChar (d : Nat) : Char := Char.ofNat (48 + d)

/-- Little-endian decimal digits, computed with explicit fuel so that the
kernel can evaluate it. -/
def revDigitsAux : Nat → Nat → List Nat
  | _, 0 => []
  | 0, _ + 1 => []
  | fuel + 1, n + 1 => ((n + 1) % 10) :: revDigitsAux fuel ((n + 1) / 10)

def natRevDigits (n : Nat) : List Nat := revDigitsAux n n

/-- Models `format!("{}", n)` for a natural number. -/
def natRepr (n : Nat) : Str :=
  if n = 0 then ['0'] else ((natRevDigits n).reverse).map digitChar

def digitVal (c : Char) : Option Nat :=
  if 48 ≤ c.toNat ∧ c.toNat ≤ 57 then some (c.toNat - 48) else none

def parseNatCore : Nat → Str → Option Nat
  | acc, [] => some acc
  | acc, c :: cs =>
    match digitVal c with
    | some d => parseNatCore (acc * 10 + d) cs
    | none => none

/-- Models `str::parse::<u64>()`: optional leading plus sign, at least one digit,
value must fit in 64 bits. -/
def parseU64 (s : Str) : Option Nat :=
  let ds := if s.head? = some '+' then s.tail else s
  if ds.isEmpty then none
  else
    match parseNatCore 0 ds with
    | some v => if v < 2 ^ 64 then some v else none
    | none => none

/-! ## Splitting on dots: `val.splitn(3, ".")` -/

def splitFirstDot : Str → Option (Str × Str)
  | [] => none
  | c :: cs =>
    if c = '.' then some ([], cs)
    else
      match splitFirstDot cs with
      | some (a, b) => some (c :: a, b)
      | none => none

def splitn3Dot (s : Str) : List Str :=
  match splitFirstDot s with
  | none => [s]
  | some (a, rest) =>
    match splitFirstDot rest with
    | none => [a, rest]
    | some (b, rest2) => [a, b, rest2]

/-! ## The native DOM model

JS node objects are an arena `heap : List (Nat × DomNode)` indexed by numeric
handles; `web_sys` method calls become functional updates.  `dyn_ref` casts
are modelled by the node kind and, for elements, by `ElemClass` (which
concrete element class the browser instantiated at creation). -/

/-- Which `web_sys` element class a created element belongs to, as tested by
the source's `dyn_ref::<HtmlInputElement>`, `dyn_ref::<HtmlOptionElement>`
and `dyn_ref::<SvgElement>` casts. -/
inductive ElemClass : Type
  | htmlInput
  | htmlOption
  | svg
  | otherElem
  deriving DecidableEq

inductive NodeKind : Type
  | element (tag : Str) (ns : Option Str) (cls : ElemClass)
  | text (content : Str)
  | comment (content : Str)
  deriving DecidableEq

def NodeKind.isText : NodeKind → Bool
  | .text _ => true
  | _ => false

def NodeKind.isElement : NodeKind → Bool
  | .element _ _ _ => true
  | _ => false

/-- Live widget state reachable only through property setters
(`set_value`, `set_checked`, `set_selected`), not through attributes. -/
structure LiveState : Type where
  value : Str := []
  checked : Bool := false
  selected : Bool := false
  deriving DecidableEq

structure DomNode : Type where
  kind : NodeKind
  attrs : List (Str × Str) := []
  children : List Nat := []
  live : LiveState := {}
  deriving DecidableEq

def svgNamespace : Str := "http://www.w3.org/2000/svg".data

/-- Which element class `Document::createElement(Ns)` instantiates. -/
def classifyElement (tag : Str) (ns : Option Str) : ElemClass :=
  if ns = some svgNamespace then .svg
  else if tag = "input".data then .htmlInput
  else if tag = "option".data then .htmlOption
  else .otherElem

def mkElement (tag : Str) (ns : Option Str) : DomNode :=
  { kind := .element tag ns (classifyElement tag ns) }

def mkTextNode (s : Str) : DomNode := { kind := .text s }

def mkCommentNode (s : Str) : DomNode := { kind := .comment s }

/-- The whole interpreter state: `WebsysDom` of the source.
`stack.list` grows towards the end of the list (`list.last` is the top);
`registry` is the `nodes : SlotMap<DefaultKey, Node>` field, mapping a slot
id to the handle of a heap node; `listeners` maps an event category to its
reference count; `attached` records the categories with a native closure
installed at the root; `delivered` is not stored (events are modelled
separately). -/
structure WebsysDom : Type where
  stack : List Nat
  heap : List (Nat × DomNode)
  nextHandle : Nat
  registry : List (Nat × Nat)
  listeners : List (Str × Nat)
  attached : List Str
  root : Nat
  lastNodeWasText : Bool
  deriving DecidableEq

def getNode (d : WebsysDom) (h : Nat) : Option DomNode := lookupA d.heap h

def setNode (d : WebsysDom) (h : Nat) (n : DomNode) : WebsysDom :=
  { d with heap := updateA d.heap h n }

/-- Models `Vec::pop` on the builder stack: returns the popped top and the rest, or
`none` when empty (the source's `.unwrap()` then panics). -/
def stackPop? (l : List Nat) : Option (Nat × List Nat) :=
  match l.getLast? with
  | some x => some (x, l.dropLast)
  | none => none

def stripChild (child : Nat) (n : DomNode) : DomNode :=
  { n with children := n.children.filter (fun c => decide (c ≠ child)) }

/-- A node is detached from wherever it currently sits before being inserted
(the DOM move semantics of `appendChild` / `replaceWith`). -/
def detach (d : WebsysDom) (child : Nat) : WebsysDom :=
  { d with heap := d.heap.map (fun p => (p.1, stripChild child p.2)) }

/-- Models `Node::appendChild`.  Appending into a text or comment parent raises
`HierarchyRequestError`, which the source `.unwrap()`s: modelled as `none`.
(Cycle creation, also an error in the DOM, is not modelled; the interpreter
never creates one in the runs considered here.) -/
def appendChildNative (d : WebsysDom) (parent child : Nat) : Option WebsysDom :=
  match getNode d parent with
  | none => none
  | some pn =>
    if pn.kind.isElement then
      let d1 := detach d child
      match getNode d1 parent with
      | none => none
      | some pn1 => some (setNode d1 parent { pn1 with children := pn1.children ++ [child] })
    else none

/-! ### The edit interpreter operations, one per method of `WebsysDom` -/

/-- Models `WebsysDom::push` (the `PushRoot` edit): resolve the id in the registry
and push the handle; an unknown id hits `todo!()`. -/
def pushRoot (id : Nat) (d : WebsysDom) : Option WebsysDom :=
  match lookupA d.registry id with
  | some h => some { d with stack := d.stack ++ [h] }
  | none => none

/-- Models `WebsysDom::pop` (the `PopRoot` edit). -/
def popRoot (d : WebsysDom) : Option WebsysDom :=
  match stackPop? d.stack with
  | some (_, rest) => some { d with stack := rest }
  | none => none

/-- The body of the `for _ in 0..many` loop of `append_children`: pop a
child; if it is a text node directly after another text child, create a
`"dioxus"` comment node and append it to `self.stack.top()`; update the
`last_node_was_text` flag; append the child to `root`. -/
def appendChildrenLoop (root : Nat) : Nat → WebsysDom → Option WebsysDom
  | 0, d => some d
  | k + 1, d => do
    let (child, rest) ← stackPop? d.stack
    let d1 := { d with stack := rest }
    let cn ← getNode d1 child
    let d2 ← match cn.kind with
      | .text _ => do
          let d3 ←
            if d1.lastNodeWasText then do
              let h := d1.nextHandle
              let dh := { d1 with heap := (h, mkCommentNode ("dioxus".data)) :: d1.heap,
                                  nextHandle := h + 1 }
              let top ← dh.stack.getLast?
              appendChildNative dh top h
            else pure d1
          pure { d3 with lastNodeWasText := true }
      | _ => pure { d1 with lastNodeWasText := false }
    let d4 ← appendChildNative d2 root child
    appendChildrenLoop root k d4

/-- Models `WebsysDom::append_children`.  `self.stack.list.len() - (1 + many)`
underflows (and the following `.get(..).unwrap()` panics) when fewer than
`many + 1` nodes are on the stack. -/
def append_children (many : Nat) (d : WebsysDom) : Option WebsysDom :=
  if d.stack.length < many + 1 then none
  else do
    let root ← d.stack.get? (d.stack.length - (1 + many))
    appendChildrenLoop root many d

/-- Models `Element/CharacterData::replace_with_with_node_1`: if `old` has a parent,
substitute `new` for `old` in that parent's child list (first detaching `new`
from its previous position); a parentless `old` makes it a no-op. -/
def replaceNative (d : WebsysDom) (old new : Nat) : WebsysDom :=
  if d.heap.any (fun p => p.2.children.contains old) then
    let d1 := detach d new
    { d1 with heap := d1.heap.map (fun p =>
        (p.1, { p.2 with children := p.2.children.map (fun c => if c = old then new else c) })) }
  else d

/-- Models `WebsysDom::replace_with`.  Note the source only performs the native
replacement when `many == 1`; for any other count it still pops two nodes
and pushes the new one back, touching nothing in the native tree.  All nodes
this interpreter creates are `Element`s or `CharacterData`, so the
`DocumentType` branch and the final `panic!` are unreachable. -/
def replace_with (many : Nat) (d : WebsysDom) : Option WebsysDom := do
  let (newNode, rest1) ← stackPop? d.stack
  let (oldNode, rest2) ← stackPop? rest1
  let d1 := { d with stack := rest2 }
  let d2 := if many = 1 then replaceNative d1 oldNode newNode else d1
  pure { d2 with stack := d2.stack ++ [newNode] }

/-- Models `WebsysDom::create_text_node`: create, push, then
`*self.nodes.get_mut(key).unwrap() = node` — the registry write panics when
the slot id has never been inserted. -/
def registryOverwrite (id handle : Nat) (d : WebsysDom) : Option WebsysDom :=
  match lookupA d.registry id with
  | some _ => some { d with registry := updateA d.registry id handle }
  | none => none

def create_text_node (txt : Str) (id : Nat) (d : WebsysDom) : Option WebsysDom :=
  let h := d.nextHandle
  let d1 := { d with heap := (h, mkTextNode txt) :: d.heap,
                     nextHandle := h + 1,
                     stack := d.stack ++ [h] }
  registryOverwrite id h d1

/-- Models `WebsysDom::create_element` (also `CreateElementNs` via the `ns`
argument). -/
def create_element (tag : Str) (ns : Option Str) (id : Nat) (d : WebsysDom) : Option WebsysDom :=
  let h := d.nextHandle
  let d1 := { d with heap := (h, mkElement tag ns) :: d.heap,
                     nextHandle := h + 1,
                     stack := d.stack ++ [h] }
  registryOverwrite id h d1

/-- Models `WebsysDom::create_placeholder` delegates to `create_element("pre")`. -/
def create_placeholder (id : Nat) (d : WebsysDom) : Option WebsysDom :=
  create_element ("pre".data) none id d

def dioxusEventKey (category : Str) : Str := "dioxus-event-".data ++ category

/-- Models `format!("{}.{}", scope_id, real_id)`: the reservation-attribute value. -/
def encodeIds (scopeId realId : Nat) : Str := natRepr scopeId ++ '.' :: natRepr realId

/-- Models `WebsysDom::new_event_listener`: strip the `on` prefix
(`event.split_at(2)`), require the stack top to be an element
(`.expect("not an element")`), write the reservation attribute, then create
the delegated closure on first use of the category or bump its count. -/
def new_event_listener (event : Str) (scope : Nat) (_elementIdx : Nat) (realId : Nat)
    (d : WebsysDom) : Option WebsysDom := do
  let category := event.drop 2
  let top ← d.stack.getLast?
  let tn ← getNode d top
  match tn.kind with
  | .element _ _ _ =>
    let d1 := setNode d top
      { tn with attrs := setA tn.attrs (dioxusEventKey category) (encodeIds scope realId) }
    match lookupA d1.listeners category with
    | some cnt => some { d1 with listeners := updateA d1.listeners category (cnt + 1) }
    | none => some { d1 with listeners := (category, 1) :: d1.listeners,
                             attached := category :: d1.attached }
  | _ => none

/-- Models `WebsysDom::set_text`: `set_text_content` on the stack top.  For
character data it replaces the content; for an element it replaces all
children with one fresh text node. -/
def set_text (txt : Str) (d : WebsysDom) : Option WebsysDom := do
  let top ← d.stack.getLast?
  let tn ← getNode d top
  match tn.kind with
  | .text _ => pure (setNode d top { tn with kind := .text txt })
  | .comment _ => pure (setNode d top { tn with kind := .comment txt })
  | .element _ _ _ =>
    let h := d.nextHandle
    let d1 := { d with heap := (h, mkTextNode txt) :: d.heap, nextHandle := h + 1 }
    pure (setNode d1 top { tn with children := [h] })

/-- Models `WebsysDom::set_attribute`: `class` is special-cased per namespace
(`SvgAnimatedString::set_base_val` / `set_class_name`, both of which reflect
into the `class` attribute); every branch silently skips when the stack top
fails the `dyn_ref` cast. -/
def set_attribute (name value : Str) (ns : Option Str) (d : WebsysDom) : Option WebsysDom := do
  let top ← d.stack.getLast?
  let tn ← getNode d top
  if name = "class".data then
    if ns = some svgNamespace then
      match tn.kind with
      | .element _ _ .svg =>
        pure (setNode d top { tn with attrs := setA tn.attrs ("class".data) value })
      | _ => pure d
    else
      match tn.kind with
      | .element _ _ _ =>
        pure (setNode d top { tn with attrs := setA tn.attrs ("class".data) value })
      | _ => pure d
  else
    match tn.kind with
    | .element _ _ _ => pure (setNode d top { tn with attrs := setA tn.attrs name value })
    | _ => pure d

/-- Models `WebsysDom::remove_attribute`: remove the attribute when the top is an
element, then apply the volatile-attribute property setters exactly as the
source does (`set_value("")`, `set_checked(false)`, `set_selected(true)`). -/
def remove_attribute (name : Str) (d : WebsysDom) : Option WebsysDom := do
  let top ← d.stack.getLast?
  let tn ← getNode d top
  match tn.kind with
  | .element _ _ cls =>
    let n1 := { tn with attrs := removeA tn.attrs name }
    let n2 :=
      match cls with
      | .htmlInput =>
        let l1 := if name = "value".data then { n1.live with value := [] } else n1.live
        let l2 := if name = "checked".data then { l1 with checked := false } else l1
        { n1 with live := l2 }
      | .htmlOption =>
        if name = "selected".data then { n1 with live := { n1.live with selected := true } }
        else n1
      | _ => n1
    pure (setNode d top n2)
  | _ => pure d

/-! ## Event delegation: `virtual_event_from_websys_event` and
`decode_trigger` -/

inductive VirtualEvent : Type
  | mouseEvent
  | otherEvent
  deriving DecidableEq

/-- Only `EventPriority::High` is ever constructed by this module. -/
inductive EventPriority : Type
  | high
  deriving DecidableEq

structure EventTrigger : Type where
  event : VirtualEvent
  scope : Nat
  mountedDomId : Option Nat
  priority : EventPriority
  deriving DecidableEq

def mouseEventTypes : List Str :=
  ["click", "contextmenu", "doubleclick", "drag", "dragend", "dragenter", "dragexit",
   "dragleave", "dragover", "dragstart", "drop", "mousedown", "mouseenter",
   "mouseleave", "mousemove", "mouseout", "mouseover", "mouseup"].map String.data

/-- Event types whose arm in `virtual_event_from_websys_event` is a
`todo!()` (a panic). -/
def todoEventTypes : List Str :=
  ["copy", "cut", "paste",
   "compositionend", "compositionstart", "compositionupdate",
   "keydown", "keypress", "keyup",
   "focus", "blur",
   "change",
   "input", "invalid", "reset", "submit",
   "pointerdown", "pointermove", "pointerup", "pointercancel", "gotpointercapture",
   "lostpointercapture", "pointerenter", "pointerleave", "pointerover", "pointerout",
   "select",
   "touchcancel", "touchend", "touchmove", "touchstart",
   "scroll",
   "wheel",
   "abort", "canplay", "canplaythrough", "durationchange", "emptied", "encrypted",
   "ended", "error", "loadeddata", "loadedmetadata", "loadstart", "pause", "play",
   "playing", "progress", "ratechange", "seeked", "seeking", "stalled", "suspend",
   "timeupdate", "volumechange", "waiting",
   "animationstart", "animationend", "animationiteration",
   "transitionend",
   "toggle"].map String.data

/-- Models `virtual_event_from_websys_event`: mouse categories build a
`VirtualEvent::MouseEvent`, the wildcard arm builds `OtherEvent`, and every
other listed arm is `todo!()` — modelled as `none` (panic). -/
def virtualEventFrom (typ : Str) : Option VirtualEvent :=
  if typ ∈ mouseEventTypes then some .mouseEvent
  else if typ ∈ todoEventTypes then none
  else some .otherEvent

/-- A dispatched native event, reduced to what `decode_trigger` reads: the
type string and the attribute map of the (element) origin target. -/
structure NativeEvent : Type where
  typ : Str
  targetAttrs : List (Str × Str)
  deriving DecidableEq

/-- The `splitn(3, ".")` + two `parse::<u64>()` part of `decode_trigger`,
with the source's error messages. -/
def decodeFields (val : Str) : Except Str (Nat × Nat) :=
  let fields := splitn3Dot val
  match fields.head? >>= parseU64 with
  | none => .error ("failed to parse gi id".data)
  | some gi =>
    match fields.get? 1 >>= parseU64 with
    | none => .error ("failed to parse real id".data)
    | some real => .ok (gi, real)

/-- Models `decode_trigger`: read the reservation attribute of the target (absent
attribute is the `wrong format` error), decode the two ids, then build the
trigger.  The outer `Option` is panic: `virtual_event_from_websys_event`
still contains `todo!()` arms, hit only after a successful decode. -/
def decode_trigger (e : NativeEvent) : Option (Except Str EventTrigger) :=
  match lookupA e.targetAttrs (dioxusEventKey e.typ) with
  | none => some (.error ("wrong format - received ".data ++ e.typ))
  | some val =>
    match decodeFields val with
    | .error m => some (.error m)
    | .ok (gi, real) =>
      match virtualEventFrom e.typ with
      | none => none
      | some ve => some (.ok { event := ve, scope := gi, mountedDomId := some real,
                               priority := .high })

/-- The delegated closure installed by `new_event_listener`: on `Ok` send
the trigger through the channel, on `Err` log and drop.  Result: the
triggers delivered to the channel and the log lines. -/
def listenerCallback (e : NativeEvent) : Option (List EventTrigger × List Str) :=
  match decode_trigger e with
  | none => none
  | some (.ok t) => some ([t], [])
  | some (.error m) => some ([], ["Error decoding Dioxus event attribute. ".data ++ m])

/-- All triggers delivered to the scheduler channel over a sequence of
dispatches (a panicking dispatch delivers nothing). -/
def deliveredTriggers (es : List NativeEvent) : List EventTrigger :=
  es.foldr (fun e acc =>
    (match listenerCallback e with
     | some (ts, _) => ts
     | none => []) ++ acc) []

/-! ## The dynamic render cell: `VProps` of `any_props.rs`

Rust's `dyn Any` type erasure is modelled by a universe of type codes with
decidable equality; `downcast_ref::<P>` compares the stored code with the
expected one.  A Rust panic inside the render function is an explicit
`PanicOr.panicked` value; `std::panic::catch_unwind` reifies it. -/

inductive Ty : Type
  | tUnit
  | tNat
  | tBool
  | tStr
  | tPair (a b : Ty)
  | tList (a : Ty)
  deriving DecidableEq

def Ty.interp : Ty → Type
  | .tUnit => Unit
  | .tNat => Nat
  | .tBool => Bool
  | .tStr => Str
  | .tPair a b => a.interp × b.interp
  | .tList a => List a.interp

/-- A `&dyn Any` value: a type code together with a value of that type. -/
def AnyValue : Type := Σ t : Ty, t.interp

/-- Models `<dyn Any>::downcast_ref::<P>()`. -/
def downcastRef (t : Ty) (a : AnyValue) : Option t.interp :=
  if h : a.1 = t then some (h ▸ a.2) else none

/-- A computation that either finishes or panics (Rust unwinding). -/
inductive PanicOr (α : Type) : Type
  | panicked (msg : String)
  | ok (val : α)

/-- Models `std::panic::catch_unwind`: turns a panicking computation into a value;
it never panics itself. -/
def catchUnwind {α : Type} (m : PanicOr α) : PanicOr (PanicOr α) := .ok m

/-- Models `RenderReturn`: a ready render tree or the empty default placeholder. -/
inductive RenderReturn (E : Type) : Type
  | ready (e : E)
  | default
  deriving DecidableEq

/-- Models `VProps<P>`: render function (`Component<P>` returns `Option<VNode>`),
memo comparator, current props, display name. -/
structure VProps (t : Ty) (E : Type) : Type where
  render_fn : t.interp → PanicOr (Option E)
  memo : t.interp → t.interp → Bool
  props : t.interp
  name : String

/-- Models `VProps::memoize`: downcast the candidate, `false` on type mismatch,
else delegate to the comparator. -/
def VProps.memoize {t : Ty} {E : Type} (c : VProps t E) (other : AnyValue) : Bool :=
  match downcastRef t other with
  | some o => c.memo c.props o
  | none => false

/-- Models `VProps::props`: expose the current props for safe downcasting. -/
def VProps.propsAny {t : Ty} {E : Type} (c : VProps t E) : AnyValue := ⟨t, c.props⟩

/-- Models `VProps::render`: call the render function on (a clone of) the current
props under `catch_unwind`; `Ok(Some(e))` is a ready tree, `Ok(None)` the
default, and a caught panic is logged with the component name and turned
into the default.  The result pairs the `RenderReturn` with the log lines
emitted; the outer `PanicOr` would record a panic escaping `render` itself,
which the theorem shows cannot happen. -/
def VProps.render {t : Ty} {E : Type} (c : VProps t E) :
    PanicOr (RenderReturn E × List String) :=
  match catchUnwind (c.render_fn c.props) with
  | .ok (.ok (some e)) => .ok (.ready e, [])
  | .ok (.ok none) => .ok (.default, [])
  | .ok (.panicked _) =>
    .ok (.default, ["Error while rendering component `" ++ c.name ++ "`"])
  | .panicked m => .panicked m

/-- Models `VProps::duplicate`: an independent cell with the same parts. -/
def VProps.duplicate {t : Ty} {E : Type} (c : VProps t E) : VProps t E :=
  { render_fn := c.render_fn, memo := c.memo, props := c.props, name := c.name }

/-- Rendering a whole collection of cells, one by one. -/
def renderAll {t : Ty} {E : Type} (cs : List (VProps t E)) :
    List (PanicOr (RenderReturn E × List String)) :=
  cs.map VProps.render

/-- A node on the builder stack: exists in the heap and is not a text node.
This is what lets `append_children` run without the comment-marker path. -/
def isNonTextNode (d : WebsysDom) (h : Nat) : Bool :=
  match getNode d h with
  | some n => !n.kind.isText
  | none => false

/-! ## Fixture states and cells used by the claim theorems -/

/-- Parent fixture: a `div` (handle 0) on the stack below two element
children pushed in the order `p` (handle 1) then `span` (handle 2). -/
def c1CexDom : WebsysDom :=
  { stack := [0, 1, 2],
    heap := [(0, mkElement ("div".data) none), (1, mkElement ("p".data) none),
             (2, mkElement ("span".data) none)],
    nextHandle := 3, registry := [], listeners := [], attached := [],
    root := 0, lastNodeWasText := false }

/-- Fixture for C2: a `div` parent (handle 0) below four pending children
pushed in the order text `"a"` (1), element `em` (2), text `"b"` (3),
text `"c"` (4). -/
def c2Dom : WebsysDom :=
  { stack := [0, 1, 2, 3, 4],
    heap := [(0, mkElement ("div".data) none), (1, mkTextNode ("a".data)),
             (2, mkElement ("em".data) none), (3, mkTextNode ("b".data)),
             (4, mkTextNode ("c".data))],
    nextHandle := 5, registry := [], listeners := [], attached := [],
    root := 0, lastNodeWasText := false }

/-- Fixture for C3: only id 0 (the root) has ever been inserted into the
registry. -/
def c3Dom : WebsysDom :=
  { stack := [], heap := [(0, mkElement ("div".data) none)], nextHandle := 1,
    registry := [(0, 0)], listeners := [], attached := [], root := 0,
    lastNodeWasText := false }

/-- Fixture for C4: a `div` root whose only child is `p` (handle 1, the
"old" node); the stack holds old `p` under new `span` (handle 2). -/
def c4Dom : WebsysDom :=
  { stack := [1, 2],
    heap := [(0, { kind := (mkElement ("div".data) none).kind, children := [1] }),
             (1, mkElement ("p".data) none), (2, mkElement ("span".data) none)],
    nextHandle := 3, registry := [], listeners := [], attached := [],
    root := 0, lastNodeWasText := false }

/-- A cell whose render function always panics. -/
def c5FailCell : VProps .tNat Nat :=
  { render_fn := fun _ => .panicked ("boom" : String), memo := fun _ _ => true,
    props := (3 : Nat), name := "App" }

/-- A `click` event whose origin element carries no reservation
attribute. -/
def c6BadEvent : NativeEvent := { typ := "click".data, targetAttrs := [] }

/-- Fixture for C7: a lone `button` element on the stack. -/
def c7Dom : WebsysDom :=
  { stack := [0], heap := [(0, mkElement ("button".data) none)], nextHandle := 1,
    registry := [], listeners := [], attached := [], root := 0,
    lastNodeWasText := false }

/-- Fixture for C8: an `option` element on the stack carrying the
`selected` attribute but with live `selected = false`, and an `input`
element with live value `"x"` and checked state set. -/
def c8OptionDom : WebsysDom :=
  { stack := [0],
    heap := [(0, { kind := .element ("option".data) none .htmlOption,
                   attrs := [("selected".data, [])] })],
    nextHandle := 1, registry := [], listeners := [], attached := [], root := 0,
    lastNodeWasText := false }

def c8InputDom : WebsysDom :=
  { stack := [0],
    heap := [(0, { kind := .element ("input".data) none .htmlInput,
                   live := { value := "x".data, checked := true } })],
    nextHandle := 1, registry := [], listeners := [], attached := [], root := 0,
    lastNodeWasText := false }

/-- A cell with `Nat` properties comparing by equality. -/
def c9Cell : VProps .tNat Nat :=
  { render_fn := fun _ => .ok none, memo := fun a b => Nat.beq a b,
    props := (5 : Nat), name := "Memo" }

/-- Fixture for C10: a lone text node on the stack. -/
def c10Dom : WebsysDom :=
  { stack := [0], heap := [(0, mkTextNode ("t".data))], nextHandle := 1,
    registry := [], listeners := [], attached := [], root := 0,
    lastNodeWasText := false }

theorem lookupA_updateA_self {κ α : Type} [DecidableEq κ] (m : List (κ × α)) (k : κ) (v : α)
    (h : (lookupA m k).isSome) : lookupA (updateA m k v) k = some v := by
  induction m with
  | nil => simp [lookupA] at h
  | cons p ps ih =>
    by_cases hk : p.1 = k
    · simp [lookupA, updateA, hk]
    · simp only [lookupA, updateA, hk, if_false, if_neg hk] at h ⊢
      exact ih h

theorem lookupA_updateA_ne {κ α : Type} [DecidableEq κ] (m : List (κ × α)) (k k' : κ) (v : α)
    (h : k' ≠ k) : lookupA (updateA m k v) k' = lookupA m k' := by
  induction m with
  | nil => rfl
  | cons p ps ih =>
    show lookupA (if p.1 = k then (k, v) :: updateA ps k v else p :: updateA ps k v) k' = _
    by_cases hk : p.1 = k
    · rw [if_pos hk]
      show (if k = k' then some v else lookupA (updateA ps k v) k') = _
      rw [if_neg (fun hkk => h hkk.symm), ih]
      show _ = (if p.1 = k' then some p.2 else lookupA ps k')
      rw [if_neg (fun hp => h (hp.symm.trans hk))]
    · rw [if_neg hk]
      show (if p.1 = k' then some p.2 else lookupA (updateA ps k v) k') = _
      rw [ih]
      rfl

theorem lookupA_append_self {κ α : Type} [DecidableEq κ] (m : List (κ × α)) (k : κ) (v : α)
    (h : lookupA m k = none) : lookupA (m ++ [(k, v)]) k = some v := by
  induction m with
  | nil => simp [lookupA]
  | cons p ps ih =>
    by_cases hk : p.1 = k
    · simp [lookupA, hk] at h
    · simp only [List.cons_append, lookupA, if_neg hk] at h ⊢
      exact ih h

theorem lookupA_setA_self {κ α : Type} [DecidableEq κ] (m : List (κ × α)) (k : κ) (v : α) :
    lookupA (setA m k v) k = some v := by
  unfold setA
  by_cases h : (lookupA m k).isSome
  · simp only [h, if_true]
    exact lookupA_updateA_self m k v h
  · simp only [h, if_false]
    exact lookupA_append_self m k v (Option.not_isSome_iff_eq_none.mp h)

theorem lookupA_mem {κ α : Type} [DecidableEq κ] {m : List (κ × α)} {k : κ} {v : α}
    (h : lookupA m k = some v) : (k, v) ∈ m := by
  induction m with
  | nil => simp [lookupA] at h
  | cons p ps ih =>
    by_cases hk : p.1 = k
    · subst hk
      simp only [lookupA, if_pos rfl] at h
      injection h with h
      subst h
      rw [Prod.mk.eta]
      exact List.mem_cons_self _ _
    · simp only [lookupA, if_neg hk] at h
      exact List.mem_cons_of_mem _ (ih h)

theorem mem_updateA {κ α : Type} [DecidableEq κ] {m : List (κ × α)} {k : κ} {v : α} {p : κ × α}
    (h : p ∈ updateA m k v) : p = (k, v) ∨ p ∈ m := by
  induction m with
  | nil => simp [updateA] at h
  | cons q qs ih =>
    have hmem : p ∈ (if q.1 = k then (k, v) :: updateA qs k v else q :: updateA qs k v) := h
    by_cases hk : q.1 = k
    · rw [if_pos hk] at hmem
      rcases List.mem_cons.mp hmem with h1 | h1
      · exact Or.inl h1
      · rcases ih h1 with h2 | h2
        · exact Or.inl h2
        · exact Or.inr (List.mem_cons_of_mem _ h2)
    · rw [if_neg hk] at hmem
      rcases List.mem_cons.mp hmem with h1 | h1
      · exact Or.inr (h1 ▸ List.mem_cons_self _ _)
      · rcases ih h1 with h2 | h2
        · exact Or.inl h2
        · exact Or.inr (List.mem_cons_of_mem _ h2)

theorem map_eq_self_of {α : Type} {l : List α} {f : α → α} (h : ∀ a ∈ l, f a = a) :
    l.map f = l := by
  induction l with
  | nil => rfl
  | cons a l ih =>
    simp only [List.map_cons, h a (List.mem_cons_self a l)]
    rw [ih fun b hb => h b (List.mem_cons_of_mem _ hb)]

theorem natRevDigits_eq_digits (n : Nat) : natRevDigits n = Nat.digits 10 n := by
  suffices h : ∀ fuel n, n ≤ fuel → revDigitsAux fuel n = Nat.digits 10 n from
    h n n le_rfl
  intro fuel
  induction fuel with
  | zero =>
    intro n hn
    interval_cases n
    show ([] : List ℕ) = Nat.digits 10 0
    simp
  | succ fuel ih =>
    intro n hn
    match n with
    | 0 =>
      show ([] : List ℕ) = Nat.digits 10 0
      simp
    | m + 1 =>
      have hdiv : (m + 1) / 10 ≤ fuel := by
        have := Nat.div_lt_self (Nat.succ_pos m) (by norm_num : 1 < 10)
        omega
      show ((m + 1) % 10) :: revDigitsAux fuel ((m + 1) / 10) = _
      rw [ih _ hdiv, Nat.digits_def' (by norm_num : 1 < 10) (Nat.succ_pos m)]

theorem digitChar_toNat {d : Nat} (h : d < 10) : (digitChar d).toNat = 48 + d := by
  interval_cases d <;> decide

theorem digitVal_digitChar {d : Nat} (h : d < 10) : digitVal (digitChar d) = some d := by
  interval_cases d <;> decide

theorem digitChar_ne_dot {d : Nat} (h : d < 10) : digitChar d ≠ '.' := by
  interval_cases d <;> decide

theorem digitChar_ne_plus {d : Nat} (h : d < 10) : digitChar d ≠ '+' := by
  interval_cases d <;> decide

theorem parseNatCore_map {L : List Nat} (h : ∀ d ∈ L, d < 10) (acc : Nat) :
    parseNatCore acc (L.map digitChar) = some (L.foldl (fun a d => a * 10 + d) acc) := by
  induction L generalizing acc with
  | nil => rfl
  | cons d L ih =>
    have hd : d < 10 := h d (List.mem_cons_self d L)
    show (match digitVal (digitChar d) with
      | some d' => parseNatCore (acc * 10 + d') (L.map digitChar)
      | none => none) = _
    rw [digitVal_digitChar hd]
    exact ih (fun x hx => h x (List.mem_cons_of_mem _ hx)) (acc * 10 + d)

theorem foldl_reverse_digits (L : List Nat) (acc : Nat) :
    (L.reverse).foldl (fun a d => a * 10 + d) acc = acc * 10 ^ L.length + Nat.ofDigits 10 L := by
  induction L generalizing acc with
  | nil => simp
  | cons d L ih =>
    rw [List.reverse_cons, List.foldl_append, ih]
    simp only [List.foldl_cons, List.foldl_nil, Nat.ofDigits_cons, List.length_cons]
    ring

theorem mem_natRepr {n : Nat} {c : Char} (h : c ∈ natRepr n) : ∃ d, d < 10 ∧ c = digitChar d := by
  unfold natRepr at h
  by_cases hn : n = 0
  · simp only [hn, if_true, List.mem_singleton] at h
    exact ⟨0, by norm_num, by simpa using h⟩
  · simp only [hn, if_false, List.mem_map, List.mem_reverse] at h
    obtain ⟨d, hd, rfl⟩ := h
    refine ⟨d, ?_, rfl⟩
    rw [natRevDigits_eq_digits] at hd
    exact Nat.digits_lt_base (by norm_num) hd

theorem natRepr_ne_nil (n : Nat) : natRepr n ≠ [] := by
  unfold natRepr
  by_cases hn : n = 0
  · simp [hn]
  · simp only [hn, if_false]
    intro hcon
    have hnil : natRevDigits n = [] := by
      cases hl : natRevDigits n with
      | nil => rfl
      | cons d ds => rw [hl] at hcon; simp at hcon
    rw [natRevDigits_eq_digits] at hnil
    exact hn (Nat.digits_eq_nil_iff_eq_zero.mp hnil)

theorem parseU64_natRepr {n : Nat} (h : n < 2 ^ 64) : parseU64 (natRepr n) = some n := by
  have hhead : ¬ (natRepr n).head? = some '+' := by
    cases hr : natRepr n with
    | nil => exact absurd hr (natRepr_ne_nil n)
    | cons c cs =>
      have hc : c ∈ natRepr n := by rw [hr]; exact List.mem_cons_self _ _
      obtain ⟨d, hd, rfl⟩ := mem_natRepr hc
      simp only [List.head?]
      intro hcon
      exact digitChar_ne_plus hd (by injection hcon)
  have hemp : (natRepr n).isEmpty = false := by
    cases hr : natRepr n with
    | nil => exact absurd hr (natRepr_ne_nil n)
    | cons c cs => rfl
  have hcore : parseNatCore 0 (natRepr n) = some n := by
    unfold natRepr
    by_cases hn : n = 0
    · subst hn
      decide
    · rw [if_neg hn]
      rw [parseNatCore_map (fun d hd => by
        rw [List.mem_reverse, natRevDigits_eq_digits] at hd
        exact Nat.digits_lt_base (by norm_num) hd)]
      rw [foldl_reverse_digits]
      simp [natRevDigits_eq_digits, Nat.ofDigits_digits]
  unfold parseU64
  simp only [if_neg hhead, hemp, Bool.false_eq_true, if_false, hcore, if_pos h]

theorem splitFirstDot_no_dot {s : Str} (h : '.' ∉ s) : splitFirstDot s = none := by
  induction s with
  | nil => rfl
  | cons c cs ih =>
    have hc : ¬ c = '.' := fun hcon => h (by simp [hcon])
    rw [splitFirstDot, if_neg hc, ih (fun hcon => h (List.mem_cons_of_mem _ hcon))]

theorem splitFirstDot_append {a b : Str} (h : '.' ∉ a) :
    splitFirstDot (a ++ '.' :: b) = some (a, b) := by
  induction a with
  | nil =>
    show splitFirstDot ('.' :: b) = some ([], b)
    rw [splitFirstDot, if_pos rfl]
  | cons c cs ih =>
    have hc : ¬ c = '.' := fun hcon => h (by simp [hcon])
    rw [List.cons_append, splitFirstDot, if_neg hc,
      ih (fun hcon => h (List.mem_cons_of_mem _ hcon))]

theorem no_dot_natRepr (n : Nat) : '.' ∉ natRepr n := by
  intro hmem
  obtain ⟨d, hd, hc⟩ := mem_natRepr hmem
  exact digitChar_ne_dot hd hc.symm

/-! ## Lemmas about the DOM operations -/

theorem getNode_setNode_self (d : WebsysDom) (h : Nat) (n : DomNode)
    (hex : (getNode d h).isSome) : getNode (setNode d h n) h = some n :=
  lookupA_updateA_self _ _ _ hex

theorem getNode_setNode_ne (d : WebsysDom) (h k : Nat) (n : DomNode) (hne : k ≠ h) :
    getNode (setNode d h n) k = getNode d k :=
  lookupA_updateA_ne _ _ _ _ hne

theorem stripChild_eq_self {child : Nat} {n : DomNode} (h : child ∉ n.children) :
    stripChild child n = n := by
  unfold stripChild
  rw [List.filter_eq_self.mpr fun c hc =>
    decide_eq_true (show c ≠ child from fun hcc => h (hcc ▸ hc))]

theorem detach_eq_self {d : WebsysDom} {child : Nat}
    (h : ∀ p ∈ d.heap, child ∉ p.2.children) : detach d child = d := by
  unfold detach
  rw [map_eq_self_of fun p hp => by rw [stripChild_eq_self (h p hp)]]

/-- Models `appendChild` of a currently-detached child into an element parent is a
plain push onto the parent's child list. -/
theorem appendChildNative_detached {d : WebsysDom} {parent child : Nat} {pn : DomNode}
    (hp : getNode d parent = some pn) (hel : pn.kind.isElement = true)
    (hdet : ∀ p ∈ d.heap, child ∉ p.2.children) :
    appendChildNative d parent child =
      some (setNode d parent { pn with children := pn.children ++ [child] }) := by
  have hd : detach d child = d := detach_eq_self hdet
  unfold appendChildNative
  rw [hp]
  show (if pn.kind.isElement = true then
      match getNode (detach d child) parent with
      | none => none
      | some pn1 => some (setNode (detach d child) parent
          { pn1 with children := pn1.children ++ [child] })
    else none) = _
  rw [if_pos hel, hd, hp]

theorem getNode_stack_update (d : WebsysDom) (s : List Nat) (b : Bool) (h : Nat) :
    getNode { d with stack := s, lastNodeWasText := b } h = getNode d h := rfl

/-- The characterisation of the `append_children` loop when every pending
child is a detached non-text node and the target is an element: each
iteration pops the current stack top and pushes it onto the end of the
parent's child list, so the `many` popped nodes arrive in reverse push
order. -/
theorem appendChildrenLoop_spec (chs : List Nat) :
    ∀ (d : WebsysDom) (base : List Nat) (root : Nat) (rn : DomNode),
    d.stack = base ++ chs →
    getNode d root = some rn →
    rn.kind.isElement = true →
    (∀ h ∈ chs, isNonTextNode d h = true) →
    (∀ h ∈ chs, ∀ p ∈ d.heap, h ∉ p.2.children) →
    chs.Nodup →
    root ∉ chs →
    ∃ d', appendChildrenLoop root chs.length d = some d' ∧
      d'.stack = base ∧
      getNode d' root = some { rn with children := rn.children ++ chs.reverse } ∧
      (∀ k, k ≠ root → getNode d' k = getNode d k) ∧
      d'.registry = d.registry ∧
      d'.listeners = d.listeners ∧
      d'.nextHandle = d.nextHandle ∧
      d'.lastNodeWasText = (if chs.isEmpty then d.lastNodeWasText else false) := by
  induction chs using List.reverseRecOn with
  | nil =>
    intro d base root rn hstack hroot hel hch hdet hnd hrc
    refine ⟨d, rfl, by simpa using hstack, ?_, fun k _ => rfl, rfl, rfl, rfl, rfl⟩
    rw [List.reverse_nil, List.append_nil]
    exact hroot
  | append_singleton ys y ih =>
    intro d base root rn hstack hroot hel hch hdet hnd hrc
    have hy_mem : y ∈ ys ++ [y] := by simp
    have hpop : stackPop? d.stack = some (y, base ++ ys) := by
      rw [hstack, ← List.append_assoc]
      unfold stackPop?
      rw [List.getLast?_concat, List.dropLast_concat]
    obtain ⟨⟨ck, cattrs, cchildren, clive⟩, hcn, hcnt⟩ :
        ∃ cn, getNode d y = some cn ∧ cn.kind.isText = false := by
      have hyn := hch y hy_mem
      unfold isNonTextNode at hyn
      cases hgn : getNode d y with
      | none => rw [hgn] at hyn; cases hyn
      | some cn =>
        rw [hgn] at hyn
        exact ⟨cn, rfl, by simpa using hyn⟩
    have hroot_entry : (root, rn) ∈ d.heap := lookupA_mem hroot
    have hy_ne_root : y ≠ root := fun hcon => hrc (hcon ▸ hy_mem)
    have hnodup := List.nodup_append.mp hnd
    have hy_notin_ys : y ∉ ys := fun hcon => hnodup.2.2 hcon (List.mem_singleton.mpr rfl)
    -- the state after this iteration
    set d1 : WebsysDom := { d with stack := base ++ ys, lastNodeWasText := false } with hd1
    set rn1 : DomNode := { rn with children := rn.children ++ [y] } with hrn1
    have hroot1 : getNode d1 root = some rn := hroot
    have happ : appendChildNative d1 root y = some (setNode d1 root rn1) :=
      appendChildNative_detached hroot1 hel (fun p hp => hdet y hy_mem p hp)
    set d4 : WebsysDom := setNode d1 root rn1 with hd4
    have hstep : appendChildrenLoop root (ys ++ [y]).length d =
        appendChildrenLoop root ys.length d4 := by
      rw [List.length_append, List.length_singleton]
      show (do
        let (child, rest) ← stackPop? d.stack
        let da := { d with stack := rest }
        let cn ← getNode da child
        let db ← match cn.kind with
          | .text _ => do
              let dc ←
                if da.lastNodeWasText then do
                  let hh := da.nextHandle
                  let dh := { da with heap := (hh, mkCommentNode ("dioxus".data)) :: da.heap,
                                      nextHandle := hh + 1 }
                  let top ← dh.stack.getLast?
                  appendChildNative dh top hh
                else pure da
              pure { dc with lastNodeWasText := true }
          | _ => pure { da with lastNodeWasText := false }
        let dd ← appendChildNative db root child
        appendChildrenLoop root ys.length dd) = _
      rw [hpop]
      show (do
        let cn ← getNode { d with stack := base ++ ys } y
        let db ← match cn.kind with
          | .text _ => do
              let dc ←
                if ({ d with stack := base ++ ys } : WebsysDom).lastNodeWasText then do
                  let hh := ({ d with stack := base ++ ys } : WebsysDom).nextHandle
                  let dh := { ({ d with stack := base ++ ys } : WebsysDom) with
                              heap := (hh, mkCommentNode ("dioxus".data)) ::
                                ({ d with stack := base ++ ys } : WebsysDom).heap,
                              nextHandle := hh + 1 }
                  let top ← dh.stack.getLast?
                  appendChildNative dh top hh
                else pure { d with stack := base ++ ys }
              pure { dc with lastNodeWasText := true }
          | _ => pure { ({ d with stack := base ++ ys } : WebsysDom) with
                        lastNodeWasText := false }
        let dd ← appendChildNative db root y
        appendChildrenLoop root ys.length dd) = _
      have hcn' : getNode ({ d with stack := base ++ ys } : WebsysDom) y
          = some ⟨ck, cattrs, cchildren, clive⟩ := hcn
      rw [hcn']
      cases ck with
      | text s =>
        simp [NodeKind.isText] at hcnt
      | element tag ns cls =>
        show (do
          let dd ← appendChildNative d1 root y
          appendChildrenLoop root ys.length dd) = _
        rw [happ]
        rfl
      | comment s =>
        show (do
          let dd ← appendChildNative d1 root y
          appendChildrenLoop root ys.length dd) = _
        rw [happ]
        rfl
    have hroot4 : getNode d4 root = some rn1 :=
      getNode_setNode_self d1 root rn1 (by rw [hroot1]; rfl)
    have hother4 : ∀ k, k ≠ root → getNode d4 k = getNode d k := fun k hk =>
      getNode_setNode_ne d1 root k rn1 hk
    obtain ⟨d', hloop, hstack', hroot', hother', hreg', hlis', hnext', hflag'⟩ :=
      ih d4 base root rn1 rfl hroot4 hel
        (fun h hh => by
          have hne : h ≠ root := fun hcon => hrc (hcon ▸ List.mem_append_left _ hh)
          unfold isNonTextNode
          rw [hother4 h hne]
          exact hch h (List.mem_append_left _ hh))
        (fun h hh p hp => by
          rcases mem_updateA hp with hpv | hpv
          · subst hpv
            intro hcon
            rcases List.mem_append.mp hcon with hcon | hcon
            · exact hdet h (List.mem_append_left _ hh) (root, rn) hroot_entry hcon
            · exact hy_notin_ys (List.mem_singleton.mp hcon ▸ hh)
          · exact hdet h (List.mem_append_left _ hh) p hpv)
        hnodup.1
        (fun hcon => hrc (List.mem_append_left _ hcon))
    refine ⟨d', by rw [hstep]; exact hloop, hstack', ?_, ?_, hreg', hlis', hnext', ?_⟩
    · rw [hroot']
      rw [hrn1]
      rw [List.reverse_append, List.reverse_singleton]
      rw [List.append_assoc]
    · intro k hk
      rw [hother' k hk, hother4 k hk]
    · rw [hflag']
      have hd4flag : d4.lastNodeWasText = false := rfl
      cases hys : ys.isEmpty <;> simp [hd4flag]

theorem bind_eq_of_eq_some {α β : Type} {o : Option α} {a : α} (h : o = some a)
    (f : α → Option β) : (o >>= f) = f a := by rw [h]; rfl

/-! ## Claim theorems -/

/-- C1, counterexample.  The claim says `AppendChildren(n)` appends the `n`
popped nodes in their original push order; on a stack `[div, p, span]`
(with `p` pushed before `span`), `AppendChildren(2)` makes the `div`'s
children `[span, p]` — reverse push order — because the loop pops the top
of the stack first and appends immediately.  The net stack effect and the
surviving parent are as claimed. -/
theorem c1_push_order_refuted :
    ((append_children 2 c1CexDom).bind fun d' => (getNode d' 0).map DomNode.children)
        = some [2, 1]
    ∧ (append_children 2 c1CexDom).map WebsysDom.stack = some [0]
    ∧ ((append_children 2 c1CexDom).bind fun d' => (getNode d' 0).map DomNode.children)
        ≠ some [1, 2] :=
  ⟨by decide, by decide, by decide⟩

/-- C1 (amended): for every `AppendChildren(n)` applied when the builder
stack holds at least `n + 1` nodes, where the node at position
`len - (1 + n)` is an element and the `n` nodes above it are distinct,
detached, non-text nodes, the interpreter pops exactly those `n` nodes and
appends them as children of that parent in reverse push order (most
recently pushed first); the parent remains on the stack and the net stack
effect is `-n`.  Text children additionally trigger the marker-comment
path, treated separately under C2. -/
theorem c1_append_children_reverse_order (d : WebsysDom) (many : Nat)
    (base chs : List Nat) (root : Nat) (rn : DomNode)
    (hstack : d.stack = base ++ chs)
    (hmany : chs.length = many)
    (hbase : base ≠ [])
    (hroot : base.getLast? = some root)
    (hrn : getNode d root = some rn)
    (hel : rn.kind.isElement = true)
    (hch : ∀ h ∈ chs, isNonTextNode d h = true)
    (hdet : ∀ h ∈ chs, ∀ p ∈ d.heap, h ∉ p.2.children)
    (hnd : chs.Nodup) (hrc : root ∉ chs) :
    ∃ d', append_children many d = some d' ∧
      d'.stack = base ∧
      getNode d' root = some { rn with children := rn.children ++ chs.reverse } ∧
      (∀ k, k ≠ root → getNode d' k = getNode d k) ∧
      d'.registry = d.registry := by
  subst hmany
  have hlen : d.stack.length = base.length + chs.length := by rw [hstack]; simp
  have hbl : 1 ≤ base.length := by
    cases base with
    | nil => exact absurd rfl hbase
    | cons _ _ => simp
  have hnotlt : ¬ d.stack.length < chs.length + 1 := by omega
  have hidx : d.stack.get? (d.stack.length - (1 + chs.length)) = some root := by
    rw [hstack, List.length_append]
    have hsub : base.length + chs.length - (1 + chs.length) = base.length - 1 := by omega
    rw [hsub, List.get?_append (by omega), ← List.getLast?_eq_get?]
    exact hroot
  obtain ⟨d', hloop, h1, h2, h3, hreg, _, _, _⟩ :=
    appendChildrenLoop_spec chs d base root rn hstack hrn hel hch hdet hnd hrc
  refine ⟨d', ?_, h1, h2, h3, hreg⟩
  unfold append_children
  rw [if_neg hnotlt, bind_eq_of_eq_some hidx]
  exact hloop

/-- Witness for C1 at a concrete input: `AppendChildren(2)` over the stack
`[div, p, span]` of `c1CexDom`. -/
theorem c1_append_children_reverse_order_witness :
    ∃ d', append_children 2 c1CexDom = some d' ∧
      d'.stack = [0] ∧
      getNode d' 0 = some { mkElement ("div".data) none with
        children := (mkElement ("div".data) none).children ++ ([1, 2] : List Nat).reverse } ∧
      (∀ k, k ≠ 0 → getNode d' k = getNode c1CexDom k) ∧
      d'.registry = c1CexDom.registry :=
  c1_append_children_reverse_order c1CexDom 2 [0] [1, 2] 0 (mkElement ("div".data) none)
    (by decide) rfl (by decide) (by decide) (by decide) (by decide) (by decide)
    (by decide) (by decide) (by decide)

/-- C2, failing run.  `AppendChildren(4)` on `c2Dom` pops `"c"` (4), `"b"`
(3), `em` (2), `"a"` (1) in that order.  When the second text child `"b"`
is popped right after `"c"`, the interpreter creates the `"dioxus"` marker
comment (handle 5) but appends it to `self.stack.top()` — at that moment
the pending child `em`, not the parent — so the parent ends up with the two
text nodes 4 and 3 as adjacent siblings and the marker buried inside `em`.
This contradicts both the claim and the source's own comment that markers
keep text siblings from becoming adjacent. -/
theorem c2_marker_misplaced_adjacent_texts :
    ((append_children 4 c2Dom).bind fun d' => (getNode d' 0).map DomNode.children)
        = some [4, 3, 2, 1]
    ∧ ((append_children 4 c2Dom).bind fun d' =>
        (getNode d' 4).map (fun n => n.kind.isText)) = some true
    ∧ ((append_children 4 c2Dom).bind fun d' =>
        (getNode d' 3).map (fun n => n.kind.isText)) = some true
    ∧ ((append_children 4 c2Dom).bind fun d' => (getNode d' 2).map DomNode.children)
        = some [5]
    ∧ ((append_children 4 c2Dom).bind fun d' => (getNode d' 5).map DomNode.kind)
        = some (.comment ("dioxus".data)) :=
  ⟨by decide, by decide, by decide, by decide, by decide⟩

/-- C3, counterexample.  The claim says registering a created node under an
id succeeds whether or not the registry already has an entry for that id.
In the source every creator writes the registry with
`*self.nodes.get_mut(key).unwrap() = node`, which panics when the slot id
was never inserted: creating under the fresh id 5 hard-faults. -/
theorem c3_register_requires_existing_slot :
    lookupA c3Dom.registry 5 = none
    ∧ create_text_node ("hi".data) 5 c3Dom = none
    ∧ create_element ("div".data) none 5 c3Dom = none
    ∧ create_placeholder 5 c3Dom = none :=
  ⟨by decide, by decide, by decide, by decide⟩

theorem registryOverwrite_spec {d : WebsysDom} {id h0 : Nat} (handle : Nat)
    (hreg : lookupA d.registry id = some h0) :
    registryOverwrite id handle d =
      some { d with registry := updateA d.registry id handle } := by
  unfold registryOverwrite
  rw [hreg]

/-- C3 (amended): when the registry already holds an entry for the id, each
creator (`CreateElement`, `CreateElementNs`, `CreateTextNode`,
`CreatePlaceholder`) succeeds, overwrites the mapping, and afterwards
looking up the id yields the handle of the newly created node (which is
also pushed); when no entry exists the instruction hard-faults instead. -/
theorem c3_register_overwrites_existing (d : WebsysDom) (id h0 : Nat) (txt tag : Str)
    (ns : Option Str) (hreg : lookupA d.registry id = some h0) :
    (∃ d', create_text_node txt id d = some d' ∧
        lookupA d'.registry id = some d.nextHandle ∧
        getNode d' d.nextHandle = some (mkTextNode txt) ∧
        d'.stack = d.stack ++ [d.nextHandle]) ∧
    (∃ d', create_element tag ns id d = some d' ∧
        lookupA d'.registry id = some d.nextHandle ∧
        getNode d' d.nextHandle = some (mkElement tag ns) ∧
        d'.stack = d.stack ++ [d.nextHandle]) ∧
    (∃ d', create_placeholder id d = some d' ∧
        lookupA d'.registry id = some d.nextHandle ∧
        getNode d' d.nextHandle = some (mkElement ("pre".data) none) ∧
        d'.stack = d.stack ++ [d.nextHandle]) := by
  have hsome : (lookupA d.registry id).isSome := by rw [hreg]; rfl
  refine ⟨?_, ?_, ?_⟩
  · refine ⟨_, registryOverwrite_spec d.nextHandle hreg, ?_, ?_, rfl⟩
    · exact lookupA_updateA_self _ _ _ hsome
    · show lookupA ((d.nextHandle, mkTextNode txt) :: d.heap) d.nextHandle = _
      rw [lookupA, if_pos rfl]
  · refine ⟨_, registryOverwrite_spec d.nextHandle hreg, ?_, ?_, rfl⟩
    · exact lookupA_updateA_self _ _ _ hsome
    · show lookupA ((d.nextHandle, mkElement tag ns) :: d.heap) d.nextHandle = _
      rw [lookupA, if_pos rfl]
  · refine ⟨_, registryOverwrite_spec d.nextHandle hreg, ?_, ?_, rfl⟩
    · exact lookupA_updateA_self _ _ _ hsome
    · show lookupA ((d.nextHandle, mkElement ("pre".data) none) :: d.heap) d.nextHandle = _
      rw [lookupA, if_pos rfl]

/-- Witness for C3 at a concrete input: re-registering under the existing
id 0 of `c3Dom`. -/
theorem c3_register_overwrites_existing_witness :
    (∃ d', create_text_node ("hi".data) 0 c3Dom = some d' ∧
        lookupA d'.registry 0 = some c3Dom.nextHandle ∧
        getNode d' c3Dom.nextHandle = some (mkTextNode ("hi".data)) ∧
        d'.stack = c3Dom.stack ++ [c3Dom.nextHandle]) ∧
    (∃ d', create_element ("span".data) none 0 c3Dom = some d' ∧
        lookupA d'.registry 0 = some c3Dom.nextHandle ∧
        getNode d' c3Dom.nextHandle = some (mkElement ("span".data) none) ∧
        d'.stack = c3Dom.stack ++ [c3Dom.nextHandle]) ∧
    (∃ d', create_placeholder 0 c3Dom = some d' ∧
        lookupA d'.registry 0 = some c3Dom.nextHandle ∧
        getNode d' c3Dom.nextHandle = some (mkElement ("pre".data) none) ∧
        d'.stack = c3Dom.stack ++ [c3Dom.nextHandle]) :=
  c3_register_overwrites_existing c3Dom 0 0 ("hi".data) "span".data none (by decide)

/-- C4, failing run.  The claim (and the spec's `UnsupportedReplaceArity`
error) requires `ReplaceWith(n)` with `n ≠ 1` to fail loudly.  The source
instead guards the entire native replacement behind `if many == 1` with no
else branch: `ReplaceWith(2)` and `ReplaceWith(0)` succeed, pop the old and
new nodes, push the new node back, and leave the whole native tree (`heap`)
untouched — a silent no-op, with the old node silently dropped from the
stack.  (`ReplaceWith(1)` by contrast performs the real substitution.) -/
theorem c4_replace_arity_silent_noop :
    replace_with 2 c4Dom = some { c4Dom with stack := [2] }
    ∧ replace_with 0 c4Dom = some { c4Dom with stack := [2] }
    ∧ (replace_with 2 c4Dom).map WebsysDom.heap = some c4Dom.heap
    ∧ ((replace_with 1 c4Dom).bind fun d' => (getNode d' 0).map DomNode.children)
        = some [2] :=
  ⟨by decide, by decide, by decide, by decide⟩

/-- C5: for every render cell, `render()` never lets a panic escape the
cell boundary: it always produces a `RenderReturn`; a panicking render
function yields the default placeholder together with a log line carrying
the component's display name; a normal `Some` return yields the ready tree
and a normal `None` return the default; rendering a collection is
cell-by-cell, so one cell's outcome leaves every other cell's render
untouched. -/
theorem c5_render_failure_isolated {t : Ty} {E : Type} (c : VProps t E) :
    (∃ r log, c.render = .ok (r, log)) ∧
    (∀ m, c.render_fn c.props = .panicked m →
      c.render = .ok (.default,
        ["Error while rendering component `" ++ c.name ++ "`"])) ∧
    (∀ e, c.render_fn c.props = .ok (some e) → c.render = .ok (.ready e, [])) ∧
    (c.render_fn c.props = .ok none → c.render = .ok (.default, [])) ∧
    (∀ rest, renderAll (c :: rest) = c.render :: renderAll rest) := by
  refine ⟨?_, ?_, ?_, ?_, fun rest => rfl⟩
  · cases hr : c.render_fn c.props with
    | panicked m =>
      exact ⟨_, _, by unfold VProps.render catchUnwind; rw [hr]⟩
    | ok v =>
      cases v with
      | some e => exact ⟨_, _, by unfold VProps.render catchUnwind; rw [hr]⟩
      | none => exact ⟨_, _, by unfold VProps.render catchUnwind; rw [hr]⟩
  · intro m hm
    unfold VProps.render catchUnwind
    rw [hm]
  · intro e he
    unfold VProps.render catchUnwind
    rw [he]
  · intro h0
    unfold VProps.render catchUnwind
    rw [h0]

/-- Witness for C5: the always-panicking cell renders to the default
placeholder with the name-carrying log line. -/
theorem c5_render_failure_isolated_witness :
    c5FailCell.render = .ok (.default,
      ["Error while rendering component `" ++ c5FailCell.name ++ "`"]) :=
  (c5_render_failure_isolated c5FailCell).2.1 ("boom" : String) rfl

/-- C6: a dispatched native event whose origin element's reservation
attribute for the event's category is absent, or present but undecodable,
does not crash the dispatch path: the delegated callback returns normally
with zero deliveries to the scheduler channel and one log line, and the
deliveries of every other event in the dispatch sequence are unchanged. -/
theorem c6_malformed_trigger_dropped (e : NativeEvent) (rest : List NativeEvent)
    (hmal : ∀ v, lookupA e.targetAttrs (dioxusEventKey e.typ) = some v →
      ∃ m, decodeFields v = .error m) :
    (∃ m, listenerCallback e = some ([], [m])) ∧
    deliveredTriggers (e :: rest) = deliveredTriggers rest := by
  have hcb : ∃ m, listenerCallback e = some ([], [m]) := by
    unfold listenerCallback decode_trigger
    cases hl : lookupA e.targetAttrs (dioxusEventKey e.typ) with
    | none => exact ⟨_, rfl⟩
    | some v =>
      obtain ⟨m, hm⟩ := hmal v hl
      refine ⟨"Error decoding Dioxus event attribute. ".data ++ m, ?_⟩
      show (match ((match decodeFields v with
          | Except.error m1 => some (Except.error m1)
          | Except.ok (gi, real) =>
            match virtualEventFrom e.typ with
            | none => none
            | some ve =>
              some (Except.ok (⟨ve, gi, some real, EventPriority.high⟩ : EventTrigger))) :
            Option (Except Str EventTrigger)) with
        | none => none
        | some (Except.ok t) => some ([t], [])
        | some (Except.error m1) =>
          some ([], ["Error decoding Dioxus event attribute. ".data ++ m1])) = _
      rw [hm]
  refine ⟨hcb, ?_⟩
  obtain ⟨m, hm⟩ := hcb
  show (match listenerCallback e with
    | some (ts, _) => ts
    | none => []) ++ deliveredTriggers rest = deliveredTriggers rest
  rw [hm]
  exact List.nil_append _

/-- Witness for C6: the attribute-less click is dropped with zero
deliveries. -/
theorem c6_malformed_trigger_dropped_witness :
    (∃ m, listenerCallback c6BadEvent = some ([], [m])) ∧
    deliveredTriggers [c6BadEvent] = deliveredTriggers [] :=
  c6_malformed_trigger_dropped c6BadEvent [] (fun _ hv => nomatch hv)

/-- C7: registering a listener for event name `on<cat>` on an element-top
stack writes the reservation attribute `dioxus-event-<cat>` with value
`<c>.<n>` onto that element, and the decode path recovers exactly the pair
`(c, n)` from that value; with the written attribute map as the event
target, `decode_trigger` for category `cat` produces the trigger with
scope id `c` and node id `n` (for every category whose virtual-event
construction is implemented). -/
theorem c7_reservation_attribute_roundtrip (d : WebsysDom) (cat : Str)
    (c n scopeIdx top : Nat) (tag : Str) (ens : Option Str) (cls : ElemClass)
    (tattrs : List (Str × Str)) (tch : List Nat) (tlive : LiveState) (ve : VirtualEvent)
    (htop : d.stack.getLast? = some top)
    (hn : getNode d top = some ⟨.element tag ens cls, tattrs, tch, tlive⟩)
    (hc : c < 2 ^ 64) (hnn : n < 2 ^ 64)
    (hve : virtualEventFrom cat = some ve) :
    ∃ d', new_event_listener ('o' :: 'n' :: cat) c scopeIdx n d = some d' ∧
      getNode d' top = some ⟨.element tag ens cls,
        setA tattrs (dioxusEventKey cat) (encodeIds c n), tch, tlive⟩ ∧
      decodeFields (encodeIds c n) = .ok (c, n) ∧
      decode_trigger
          { typ := cat,
            targetAttrs := setA tattrs (dioxusEventKey cat) (encodeIds c n) } =
        some (.ok { event := ve, scope := c, mountedDomId := some n,
                    priority := .high }) := by
  have hsplit : splitn3Dot (encodeIds c n) = [natRepr c, natRepr n] := by
    unfold splitn3Dot encodeIds
    rw [splitFirstDot_append (no_dot_natRepr c)]
    show (match splitFirstDot (natRepr n) with
      | none => [natRepr c, natRepr n]
      | some (b, rest2) => [natRepr c, b, rest2]) = _
    rw [splitFirstDot_no_dot (no_dot_natRepr n)]
  have hdecode : decodeFields (encodeIds c n) = .ok (c, n) := by
    unfold decodeFields
    rw [hsplit]
    show (match parseU64 (natRepr c) with
      | none => Except.error ("failed to parse gi id".data)
      | some gi =>
        match parseU64 (natRepr n) with
        | none => Except.error ("failed to parse real id".data)
        | some real => Except.ok (gi, real)) = _
    rw [parseU64_natRepr hc]
    show (match parseU64 (natRepr n) with
      | none => Except.error ("failed to parse real id".data)
      | some real => Except.ok (c, real)) = _
    rw [parseU64_natRepr hnn]
  have hdec2 : decode_trigger
      { typ := cat,
        targetAttrs := setA tattrs (dioxusEventKey cat) (encodeIds c n) } =
      some (.ok { event := ve, scope := c, mountedDomId := some n,
                  priority := .high }) := by
    unfold decode_trigger
    rw [lookupA_setA_self]
    show ((match decodeFields (encodeIds c n) with
      | Except.error m => some (Except.error m)
      | Except.ok (gi, real) =>
        match virtualEventFrom cat with
        | none => none
        | some v =>
          some (Except.ok (⟨v, gi, some real, EventPriority.high⟩ : EventTrigger))) :
      Option (Except Str EventTrigger)) = _
    rw [hdecode]
    show ((match virtualEventFrom cat with
      | none => none
      | some v =>
        some (Except.ok (⟨v, c, some n, EventPriority.high⟩ : EventTrigger))) :
      Option (Except Str EventTrigger)) = _
    rw [hve]
  have hsome : (getNode d top).isSome := by rw [hn]; rfl
  set nn : DomNode :=
    ⟨.element tag ens cls, setA tattrs (dioxusEventKey cat) (encodeIds c n), tch, tlive⟩
    with hnn
  have hnodeset : getNode (setNode d top nn) top = some nn :=
    getNode_setNode_self d top _ hsome
  cases hl : lookupA d.listeners cat with
  | some cnt =>
    refine ⟨{ setNode d top nn with listeners := updateA d.listeners cat (cnt + 1) },
      ?_, hnodeset, hdecode, hdec2⟩
    unfold new_event_listener
    rw [bind_eq_of_eq_some htop, bind_eq_of_eq_some hn]
    show (match lookupA d.listeners cat with
      | some k => some { setNode d top nn with listeners := updateA d.listeners cat (k + 1) }
      | none => some { setNode d top nn with
                       listeners := (cat, 1) :: d.listeners,
                       attached := cat :: d.attached }) = _
    rw [hl]
  | none =>
    refine ⟨{ setNode d top nn with
              listeners := (cat, 1) :: d.listeners,
              attached := cat :: d.attached },
      ?_, hnodeset, hdecode, hdec2⟩
    unfold new_event_listener
    rw [bind_eq_of_eq_some htop, bind_eq_of_eq_some hn]
    show (match lookupA d.listeners cat with
      | some k => some { setNode d top nn with listeners := updateA d.listeners cat (k + 1) }
      | none => some { setNode d top nn with
                       listeners := (cat, 1) :: d.listeners,
                       attached := cat :: d.attached }) = _
    rw [hl]

/-- Witness for C7: registering `onclick` for scope 42 and node 7 writes
`dioxus-event-click = "42.7"`, which decodes back to `(42, 7)`. -/
theorem c7_reservation_attribute_roundtrip_witness :
    ∃ d', new_event_listener ('o' :: 'n' :: "click".data) 42 0 7 c7Dom = some d' ∧
      getNode d' 0 = some ⟨.element ("button".data) none .otherElem,
        setA [] (dioxusEventKey ("click".data)) (encodeIds 42 7), [], {}⟩ ∧
      decodeFields (encodeIds 42 7) = .ok (42, 7) ∧
      decode_trigger
          { typ := "click".data,
            targetAttrs := setA [] (dioxusEventKey ("click".data)) (encodeIds 42 7) } =
        some (.ok { event := .mouseEvent, scope := 42, mountedDomId := some 7,
                    priority := .high }) :=
  c7_reservation_attribute_roundtrip c7Dom ("click".data) 42 7 0 0 ("button".data) none
    .otherElem [] [] {} .mouseEvent rfl (by decide) (by decide) (by decide) (by decide)

/-- C8, failing run.  The claim says `RemoveAttribute("selected")` on an
option node resets its selected state; the source instead calls
`node.set_selected(true)`, turning the live state ON.  Starting from an
unselected option, removing the attribute leaves `selected = true` (and
the attribute itself removed).  The input-element clauses of the claim do
hold: removing `value` resets the live value to empty and removing
`checked` resets the checked state. -/
theorem c8_remove_selected_sets_true :
    ((remove_attribute ("selected".data) c8OptionDom).bind fun d' =>
        (getNode d' 0).map (fun nd => nd.live.selected)) = some true
    ∧ ((remove_attribute ("selected".data) c8OptionDom).bind fun d' =>
        (getNode d' 0).map DomNode.attrs) = some []
    ∧ ((remove_attribute ("value".data) c8InputDom).bind fun d' =>
        (getNode d' 0).map (fun nd => nd.live.value)) = some []
    ∧ ((remove_attribute ("checked".data) c8InputDom).bind fun d' =>
        (getNode d' 0).map (fun nd => nd.live.checked)) = some false :=
  ⟨by decide, by decide, by decide, by decide⟩

/-- C9: `memoize` returns `false` whenever the candidate's type code
differs from the cell's property type, and on a matching type delegates
exactly to the comparator supplied at construction, applied to the stored
properties and the candidate. -/
theorem c9_memoize_type_guard {t : Ty} {E : Type} (c : VProps t E) :
    (∀ other : AnyValue, other.1 ≠ t → c.memoize other = false) ∧
    (∀ o : t.interp, c.memoize ⟨t, o⟩ = c.memo c.props o) := by
  constructor
  · intro other hne
    unfold VProps.memoize downcastRef
    rw [dif_neg hne]
  · intro o
    unfold VProps.memoize downcastRef
    rw [dif_pos rfl]

/-- Witness for C9: a `Bool`-typed candidate is rejected; a `Nat`-typed
candidate goes to the comparator. -/
theorem c9_memoize_type_guard_witness :
    c9Cell.memoize ⟨.tBool, true⟩ = false ∧
    c9Cell.memoize ⟨.tNat, (5 : Nat)⟩ = c9Cell.memo c9Cell.props (5 : Nat) :=
  ⟨(c9_memoize_type_guard c9Cell).1 ⟨.tBool, true⟩ (by decide),
   (c9_memoize_type_guard c9Cell).2 (5 : Nat)⟩

/-- C10: when the top of the builder stack is not an element node, both
`SetAttribute` and `RemoveAttribute` are silent no-ops: they succeed and
return the state entirely unchanged — same native tree, same registry,
same stack. -/
theorem c10_attribute_ops_nonelement_noop (d : WebsysDom) (name value : Str)
    (ns : Option Str) (top : Nat) (tn : DomNode)
    (htop : d.stack.getLast? = some top)
    (hn : getNode d top = some tn)
    (hne : tn.kind.isElement = false) :
    set_attribute name value ns d = some d ∧ remove_attribute name d = some d := by
  rcases tn with ⟨tk, tattrs, tch, tlive⟩
  cases tk with
  | element tag ens cls => simp [NodeKind.isElement] at hne
  | text s =>
    constructor
    · unfold set_attribute
      rw [bind_eq_of_eq_some htop, bind_eq_of_eq_some hn]
      split_ifs <;> rfl
    · unfold remove_attribute
      rw [bind_eq_of_eq_some htop, bind_eq_of_eq_some hn]
      rfl
  | comment s =>
    constructor
    · unfold set_attribute
      rw [bind_eq_of_eq_some htop, bind_eq_of_eq_some hn]
      split_ifs <;> rfl
    · unfold remove_attribute
      rw [bind_eq_of_eq_some htop, bind_eq_of_eq_some hn]
      rfl

/-- Witness for C10: attribute operations over a text-node top leave the
state untouched. -/
theorem c10_attribute_ops_nonelement_noop_witness :
    set_attribute ("id".data) "x".data none c10Dom = some c10Dom ∧
    remove_attribute ("id".data) c10Dom = some c10Dom :=
  c10_attribute_ops_nonelement_noop c10Dom ("id".data) "x".data none 0
    (mkTextNode ("t".data)) rfl (by decide) (by decide)

end DioxusModel

